import Mathlib

/-!
# Product provenance controller

A shallow embedding of `src/server/models/controllers/productController.js`:
the four request handlers `addProduct`, `updateProduct`, `getProduct`,
`getProductByCertHash` and the value normaliser `bigIntToString`.

Collaborators whose code is outside the controller (the ledger client, the
document store, the hash function, the QR renderer, the file system and the
clock) appear as explicit outcomes in a `World` record, one record per
handler call, so that every theorem quantifies over what they may answer.
-/

namespace ProductController

/-! ## Values returned by the ledger -/

/-- A JavaScript value as the ledger client may return it. `number` carries the
IEEE-754 bit pattern of the double, which the controller never inspects.
`object` lists the own enumerable string-keyed properties in enumeration order,
which is what `Object.entries` returns. -/
inductive JsValue where
  | null
  | undefined
  | bool (b : Bool)
  | number (bits : Nat)
  | string (s : String)
  | bigint (i : Int)
  | array (items : List JsValue)
  | object (entries : List (String × JsValue))

/-- The numeric value of a list of decimal digit characters. -/
def digitsValue (ds : List Char) : Nat :=
  ds.foldl (fun acc c => 10 * acc + (c.toNat - 48)) 0

/-- ECMAScript "array index": a property key that is the canonical decimal
rendering of an integer below `2^32 - 1`. -/
def arrayIndex? (k : String) : Option Nat :=
  if k.data ≠ [] ∧ k.data.all Char.isDigit = true then
    if toString (digitsValue k.data) = k ∧ digitsValue k.data < 4294967295 then
      some (digitsValue k.data)
    else none
  else none

/-- Whether a key `k` that is not yet present is enumerated before the present
key `k'` (ECMAScript `OrdinaryOwnPropertyKeys`): array indices come first, in
ascending numeric order; all other string keys follow in creation order. -/
def comesBefore (k k' : String) : Bool :=
  match arrayIndex? k, arrayIndex? k' with
  | some n, some m => decide (n < m)
  | some _, none => true
  | none, _ => false

/-- ECMAScript `CreateDataProperty` on an ordinary object given by its
enumeration: an existing key keeps its place and takes the new value, a new
key is placed where the enumeration order puts it. -/
def createDataProperty (k : String) (v : JsValue) :
    List (String × JsValue) → List (String × JsValue)
  | [] => [(k, v)]
  | (k', v') :: rest =>
    if k' = k then (k, v) :: rest
    else if comesBefore k k' = true then (k, v) :: (k', v') :: rest
    else (k', v') :: createDataProperty k v rest

/-- The function `Object.fromEntries`: start from the empty object and define
the entries one after another. -/
def fromEntries (entries : List (String × JsValue)) : List (String × JsValue) :=
  entries.foldl (fun o kv => createDataProperty kv.1 kv.2 o) []

/-- The message of the `RangeError` the engine throws when a call does not fit
on the call stack. -/
def rangeError : String := "Maximum call stack size exceeded"

mutual
/-- The function `bigIntToString` of `getProduct` (lines 133-142) and, with the
same text, of `getProductByCertHash` (lines 183-192), run with room for `stack`
nested activations of itself on the call stack: a call that finds no room
throws `RangeError`, and a call on a sequence or a mapping leaves one
activation less to the calls on its members. The frames of `map` and of the
arrow function between two activations are counted with the activation they
lead to. -/
def bigIntToString : Nat → JsValue → Except String JsValue
  | 0, _ => .error rangeError
  | _ + 1, .bigint i => .ok (.string (toString i))
  | stack + 1, .array items =>
    match bigIntToStringItems stack items with
    | .ok out => .ok (.array out)
    | .error e => .error e
  | stack + 1, .object entries =>
    match bigIntToStringEntries stack entries with
    | .ok out => .ok (.object (fromEntries out))
    | .error e => .error e
  | _ + 1, .null => .ok .null
  | _ + 1, .undefined => .ok .undefined
  | _ + 1, .bool b => .ok (.bool b)
  | _ + 1, .number bits => .ok (.number bits)
  | _ + 1, .string s => .ok (.string s)
/-- The call `obj.map(bigIntToString)` on the elements of an array; the first
element on which `bigIntToString` throws ends the call. -/
def bigIntToStringItems : Nat → List JsValue → Except String (List JsValue)
  | _, [] => .ok []
  | stack, x :: xs =>
    match bigIntToString stack x with
    | .error e => .error e
    | .ok y =>
      match bigIntToStringItems stack xs with
      | .ok ys => .ok (y :: ys)
      | .error e => .error e
/-- The call `Object.entries(obj).map(([k, v]) => [k, bigIntToString(v)])`; the
first value on which `bigIntToString` throws ends the call. -/
def bigIntToStringEntries :
    Nat → List (String × JsValue) → Except String (List (String × JsValue))
  | _, [] => .ok []
  | stack, (k, v) :: rest =>
    match bigIntToString stack v with
    | .error e => .error e
    | .ok y =>
      match bigIntToStringEntries stack rest with
      | .ok ys => .ok ((k, y) :: ys)
      | .error e => .error e
end

mutual
/-- The value `bigIntToString` returns when the call stack has room for the
whole walk (see `bigIntToString_eq`). -/
def converted : JsValue → JsValue
  | .bigint i => .string (toString i)
  | .array items => .array (convertedItems items)
  | .object entries => .object (fromEntries (convertedEntries entries))
  | .null => .null
  | .undefined => .undefined
  | .bool b => .bool b
  | .number bits => .number bits
  | .string s => .string s
/-- The elements of a sequence, each converted. -/
def convertedItems : List JsValue → List JsValue
  | [] => []
  | x :: xs => converted x :: convertedItems xs
/-- The entries of a mapping, each value converted. -/
def convertedEntries : List (String × JsValue) → List (String × JsValue)
  | [] => []
  | (k, v) :: rest => (k, converted v) :: convertedEntries rest
end

mutual
/-- The number of nested `bigIntToString` activations the walk of a value
needs: one for a scalar, one more than its deepest member for a sequence or a
mapping. -/
def height : JsValue → Nat
  | .array items => heightItems items + 1
  | .object entries => heightEntries entries + 1
  | _ => 1
/-- The height of the highest element of a sequence, zero when it is empty. -/
def heightItems : List JsValue → Nat
  | [] => 0
  | x :: xs => max (height x) (heightItems xs)
/-- The height of the highest value of a mapping, zero when it is empty. -/
def heightEntries : List (String × JsValue) → Nat
  | [] => 0
  | (_, v) :: rest => max (height v) (heightEntries rest)
end

/-- The value `v` wrapped in `n` nested one-element arrays. -/
def nestArrays : Nat → JsValue → JsValue
  | 0, v => v
  | n + 1, v => .array [nestArrays n v]

mutual
/-- Whether a value has an arbitrary-precision integer leaf somewhere. -/
def hasBigInt : JsValue → Bool
  | .bigint _ => true
  | .array items => hasBigIntItems items
  | .object entries => hasBigIntEntries entries
  | _ => false
/-- Whether some element of a sequence has an integer leaf. -/
def hasBigIntItems : List JsValue → Bool
  | [] => false
  | x :: xs => hasBigInt x || hasBigIntItems xs
/-- Whether some value of a mapping has an integer leaf. -/
def hasBigIntEntries : List (String × JsValue) → Bool
  | [] => false
  | (_, v) :: rest => hasBigInt v || hasBigIntEntries rest
end

/-- A key list is a possible enumeration of an object's own keys: the keys are
distinct and no later key would be enumerated before an earlier one. -/
def EnumerationOrder (keys : List String) : Prop :=
  keys.Pairwise (fun a b => a ≠ b ∧ comesBefore b a = false)

instance (keys : List String) : Decidable (EnumerationOrder keys) := by
  unfold EnumerationOrder; infer_instance

mutual
/-- A value that JavaScript can really hold: at every depth the entries of an
object are listed in a possible enumeration order. -/
def WellFormed : JsValue → Prop
  | .array items => WellFormedItems items
  | .object entries =>
    EnumerationOrder (entries.map Prod.fst) ∧ WellFormedEntries entries
  | _ => True
/-- Every element of a sequence is well formed. -/
def WellFormedItems : List JsValue → Prop
  | [] => True
  | x :: xs => WellFormed x ∧ WellFormedItems xs
/-- Every value of a mapping is well formed. -/
def WellFormedEntries : List (String × JsValue) → Prop
  | [] => True
  | (_, v) :: rest => WellFormed v ∧ WellFormedEntries rest
end

/-! ## Data model -/

/-- The content of a file as `fs.readFileSync` returns it: a sequence of bytes. -/
abbrev Buffer := List Nat

/-- A document of the `Product` collection, with the fields the controller
reads or writes. -/
structure Product where
  productId : String
  name : String
  origin : String
  manufacturer : String
  certificationHash : String
  blockchainRefHash : String
  stages : List String
  createdByWallet : String
  certFile : Option String
  imageFile : Option String
  deriving DecidableEq, Repr

/-- One entry of `req.files.certFile` or `req.files.imageFile`. -/
structure UploadedFile where
  path : String
  filename : String
  originalname : String
  deriving DecidableEq, Repr

/-- The fields of `req.body` that `addProduct` passes on; `blockchainRefHash`
is `none` when the caller sent none. -/
structure ProductBody where
  productId : String
  name : String
  origin : String
  manufacturer : String
  blockchainRefHash : Option String
  stages : List String
  deriving DecidableEq, Repr

/-- The request of `addProduct`: the body, the first uploaded certificate and
image file when there is one, and `req.user.email` as the authentication layer
set it. -/
structure AddRequest where
  body : ProductBody
  certFile : Option UploadedFile
  imageFile : Option UploadedFile
  userEmail : String
  deriving DecidableEq, Repr

/-- The request of `updateProduct`: `req.params.id` and `req.body.stage`. -/
structure UpdateRequest where
  id : String
  stage : Option String
  deriving DecidableEq, Repr

/-- The argument of `blockchain.addProductOnChain`. -/
structure OnChainFields where
  productId : String
  name : String
  origin : String
  manufacturer : String
  certificationHash : String
  deriving DecidableEq, Repr

/-- A call made to the ledger client. -/
inductive LedgerCall where
  | addProductOnChain (fields : OnChainFields)
  | updateStageOnChain (id stage : String)
  | getProductOnChain (id : String)
  deriving DecidableEq, Repr

/-- The ledger operations that write: creating a record and appending a stage. -/
def LedgerCall.isWrite : LedgerCall → Bool
  | .addProductOnChain _ => true
  | .updateStageOnChain _ _ => true
  | .getProductOnChain _ => false

/-- What the collaborators answer during one handler call. An `Except.error`
is a thrown exception or a rejected promise. `storeError` is `some e` when the
document store raises `e` on the operations of this call. `now1` and `now2`
are the readings of `Date.now()` at line 63 and at line 84. `callStack` is the
number of nested `bigIntToString` activations for which the engine's call stack
has room when the handler calls it. -/
structure World where
  readFileSync : Except String Buffer
  hashString : Buffer → String
  addProductOnChain : Except String String
  updateStageOnChain : Except String String
  getProductOnChain : Except String JsValue
  generateQRCode : Except String String
  storeError : Option String
  now1 : Nat
  now2 : Nat
  callStack : Nat

/-- What a handler hands to `res.status(..).json(..)`. -/
inductive Response where
  | created (product : Product) (qrCode : Option String) (blockchainTx : String)
  | updated (product : Product) (blockchainTx : Option String)
  | found (product : Product) (onChain : JsValue)
  | error (status : Nat) (message : String)

/-- The observable result of one handler call: the response, the document
store afterwards, and the ledger calls made, in order. -/
structure Outcome where
  response : Response
  store : List Product
  ledgerCalls : List LedgerCall

/-! ## The document store -/

/-- Modelled from the spec: `Product.findOne` belongs to the document store,
whose code is not part of the controller. Following `ProvenanceStore.FindById`,
`FindByCertificationHash` and `FindByLedgerRef`, it returns the first document
satisfying the filter, `null` when there is none, and raises when the store
fails. -/
def findOne (w : World) (filter : Product → Bool) (db : List Product) :
    Except String (Option Product) :=
  match w.storeError with
  | some e => .error e
  | none => .ok (db.find? filter)

/-- The update `{ $push: { stages: stage }, blockchainRefHash: ref }` applied
to one document; `ref = none` is the JavaScript `undefined`. -/
def applyUpdate (stage : String) (ref : Option String) (p : Product) : Product :=
  { p with
    stages := p.stages ++ [stage]
    blockchainRefHash := match ref with
      | some r => r
      | none => p.blockchainRefHash }

/-- The first document with the given `productId` replaced by its update. -/
def updateFirst (id stage : String) (ref : Option String) : List Product → List Product
  | [] => []
  | p :: rest =>
    if p.productId = id then applyUpdate stage ref p :: rest
    else p :: updateFirst id stage ref rest

/-- Modelled from the spec: `Product.findOneAndUpdate` belongs to the document
store, whose code is not part of the controller. Following
`ProvenanceStore.AppendStage` and `SetLedgerRef`, it pushes the stage on the
first document with the given `productId`, sets `blockchainRefHash` only when a
reference is given (an `undefined` value leaves the field untouched) and, with
`{ new: true }`, returns the document as updated, or `null` when no document
matches. -/
def findOneAndUpdate (w : World) (id stage : String) (ref : Option String)
    (db : List Product) : Except String (Option Product × List Product) :=
  match w.storeError with
  | some e => .error e
  | none =>
    match db.find? (fun p => decide (p.productId = id)) with
    | some p => .ok (some (applyUpdate stage ref p), updateFirst id stage ref db)
    | none => .ok (none, db)

/-- Modelled from the spec: `product.save()` belongs to the document store,
whose schema is not part of the controller. Following `ProvenanceStore.Create`,
it rejects a `productId` that is already stored, raises when the store fails,
and otherwise inserts the document. -/
def save (w : World) (db : List Product) (p : Product) : Except String (List Product) :=
  match w.storeError with
  | some e => .error e
  | none =>
    if db.any (fun q => decide (q.productId = p.productId)) = true then
      .error ("duplicate key: " ++ p.productId)
    else .ok (db ++ [p])

/-! ## The handlers -/

/-- JavaScript `a || b` where `a` is `null`/`undefined` (`none`) or a string:
`a` when it is a non-empty string, else `b`. -/
def orElse (a : Option String) (b : String) : String :=
  match a with
  | some s => if s = "" then b else s
  | none => b

/-- JavaScript `txHash || undefined`. -/
def orUndefined (a : Option String) : Option String :=
  match a with
  | some s => if s = "" then none else some s
  | none => none

/-- The value a `try { x = await call } catch { log }` leaves in `x` when `x`
was `null` before. -/
def attempt {α : Type} (r : Except String α) : Option α :=
  match r with
  | .ok v => some v
  | .error _ => none

/-- Lines 17-34 of `addProduct`: the variable `blockchainRefHash` before the
ledger call. It starts as the caller's value or the empty string, and becomes
the digest of the certificate when a certificate file was uploaded and read. -/
def certificationHashOf (w : World) (req : AddRequest) : String :=
  match req.certFile with
  | some _ =>
    match w.readFileSync with
    | .ok certBuffer => w.hashString certBuffer
    | .error _ => orElse req.body.blockchainRefHash ""
  | none => orElse req.body.blockchainRefHash ""

/-- Lines 45-51 of `addProduct`: the argument of `addProductOnChain`. -/
def onChainFields (w : World) (req : AddRequest) : OnChainFields :=
  { productId := req.body.productId
    name := req.body.name
    origin := req.body.origin
    manufacturer := req.body.manufacturer
    certificationHash := certificationHashOf w req }

/-- Lines 59-66 of `addProduct`: the document built from the request, given
`txHash` as the ledger call left it. -/
def newProduct (w : World) (req : AddRequest) (txHash : Option String) : Product :=
  { productId := req.body.productId
    name := req.body.name
    origin := req.body.origin
    manufacturer := req.body.manufacturer
    stages := req.body.stages
    certFile := req.certFile.map (fun f => "/uploads/" ++ f.filename)
    imageFile := req.imageFile.map (fun f => "/uploads/" ++ f.filename)
    blockchainRefHash :=
      orElse txHash
        (orElse (some (certificationHashOf w req)) ("mock-hash-" ++ toString w.now1))
    certificationHash := certificationHashOf w req
    createdByWallet := req.userEmail }

/-- The handler `addProduct` (lines 10-90). -/
def addProduct (w : World) (req : AddRequest) (db : List Product) : Outcome :=
  let blockchainRefHash := certificationHashOf w req
  let txHash := attempt w.addProductOnChain
  let calls := [LedgerCall.addProductOnChain (onChainFields w req)]
  let product := newProduct w req txHash
  match save w db product with
  | .error e => ⟨.error 500 e, db, calls⟩
  | .ok db' =>
    let qrCode := attempt w.generateQRCode
    ⟨.created product qrCode
        (orElse txHash (orElse (some blockchainRefHash) ("mock-hash-" ++ toString w.now2))),
      db', calls⟩

/-- The handler `updateProduct` (lines 92-121). -/
def updateProduct (w : World) (req : UpdateRequest) (db : List Product) : Outcome :=
  match orUndefined req.stage with
  | none => ⟨.error 400 "Stage is required", db, []⟩
  | some stage =>
    let txHash := attempt w.updateStageOnChain
    let calls := [LedgerCall.updateStageOnChain req.id stage]
    match findOneAndUpdate w req.id stage (orUndefined txHash) db with
    | .error e => ⟨.error 500 e, db, calls⟩
    | .ok (none, db') => ⟨.error 404 "Product not found", db', calls⟩
    | .ok (some product, db') => ⟨.updated product txHash, db', calls⟩

/-- Lines 129-149 of `getProduct` and 179-198 of `getProductByCertHash`: the
best-effort ledger read, under the given id, for a product that was found, and
the reply. The variable `onChain` starts as `null`; line 131 (181) assigns it
the value the ledger returns; line 143 (193) assigns it the result of
`bigIntToString`. An exception at either line is caught and logged, and leaves
in `onChain` what it held before that line. -/
def replyWithOnChain (w : World) (product : Product) (id : String) (db : List Product) :
    Outcome :=
  let onChain :=
    match w.getProductOnChain with
    | .error _ => JsValue.null
    | .ok v =>
      match bigIntToString w.callStack v with
      | .ok r => r
      | .error _ => v
  ⟨.found product onChain, db, [LedgerCall.getProductOnChain id]⟩

/-- The handler `getProduct` (lines 123-154). -/
def getProduct (w : World) (id : String) (db : List Product) : Outcome :=
  match findOne w (fun p => decide (p.productId = id)) db with
  | .error e => ⟨.error 500 e, db, []⟩
  | .ok none => ⟨.error 404 "Product not found", db, []⟩
  | .ok (some product) => replyWithOnChain w product id db

/-- The handler `getProductByCertHash` (lines 165-203). -/
def getProductByCertHash (w : World) (certHash : String) (db : List Product) : Outcome :=
  match findOne w (fun p => decide (p.certificationHash = certHash)) db with
  | .error e => ⟨.error 500 e, db, []⟩
  | .ok (some product) => replyWithOnChain w product product.productId db
  | .ok none =>
    match findOne w (fun p => decide (p.blockchainRefHash = certHash)) db with
    | .error e => ⟨.error 500 e, db, []⟩
    | .ok none => ⟨.error 404 "Product not found", db, []⟩
    | .ok (some product) => replyWithOnChain w product product.productId db

/-! ## Definitions used to state the properties -/

/-- The stored document with the given `productId`, as `Product.findOne`
finds it: the first one in the collection. -/
def findById (db : List Product) (id : String) : Option Product :=
  db.find? (fun p => decide (p.productId = id))

/-- One `updateProduct` call of a series on the same product: the stage label
sent and what the collaborators answer during that call. -/
structure AppendCall where
  stage : String
  world : World

/-- The document store after a series of `updateProduct` calls on the product
`id`, made one after another. -/
def appendStages (id : String) : List AppendCall → List Product → List Product
  | [], db => db
  | c :: cs, db => appendStages id cs (updateProduct c.world ⟨id, some c.stage⟩ db).store

/-- The fallback of the specification for a failed ledger call (section 4.5,
`CreateProduct`, step 2): the caller-supplied value when there is a non-empty
one, else the placeholder `mock-hash-` followed by the current time. -/
def specFallbackRef (supplied : Option String) (now : Nat) : String :=
  orElse supplied ("mock-hash-" ++ toString now)

/-- Whether a reference has the placeholder form `mock-hash-...`. -/
def isPlaceholder (ref : String) : Bool :=
  "mock-hash-".data.isPrefixOf ref.data

/-- A stand-in for `hashString` in the examples: a 32-bit polynomial checksum
rendered in hexadecimal. The general theorems hold for every `hashString`. -/
def sampleDigest (content : Buffer) : String :=
  String.mk (Nat.toDigits 16 (content.foldl (fun h b => (h * 31 + b) % 4294967296) 7))

/-- The nine bytes of the text `CERT-DATA`. -/
def certData : Buffer := "CERT-DATA".data.map Char.toNat

/-- A world in which every ledger call fails and everything else works; the
clock advances by seven milliseconds between its two readings. -/
def ledgerDown : World :=
  { readFileSync := .ok certData
    hashString := sampleDigest
    addProductOnChain := .error "ledger unreachable"
    updateStageOnChain := .error "ledger unreachable"
    getProductOnChain := .error "ledger unreachable"
    generateQRCode := .ok "qr-image"
    storeError := none
    now1 := 1700000000000
    now2 := 1700000000007
    callStack := 3221 }

/-- A world in which the ledger answers: the stage append returns the
transaction reference `tx-42`, the read returns a record with nested
arbitrary-precision integers. -/
def ledgerUp : World :=
  { readFileSync := .ok certData
    hashString := sampleDigest
    addProductOnChain := .ok "tx-41"
    updateStageOnChain := .ok "tx-42"
    getProductOnChain := .ok (.object [("id", .bigint 7),
      ("stages", .array [.object [("at", .bigint 1700000000000), ("label", .string "made")]])])
    generateQRCode := .error "renderer unavailable"
    storeError := none
    now1 := 1700000000000
    now2 := 1700000000007
    callStack := 3221 }

/-- A world in which the ledger read returns the integer `1` wrapped in 5000
nested one-element arrays, more than the call stack has room for. -/
def ledgerDeep : World :=
  { readFileSync := .ok certData
    hashString := sampleDigest
    addProductOnChain := .ok "tx-41"
    updateStageOnChain := .ok "tx-42"
    getProductOnChain := .ok (nestArrays 5000 (.bigint 1))
    generateQRCode := .ok "qr-image"
    storeError := none
    now1 := 1700000000000
    now2 := 1700000000007
    callStack := 3221 }

/-- The body of a request creating product `P1` with no caller-supplied
reference. -/
def bodyP1 : ProductBody :=
  { productId := "P1", name := "Tea", origin := "Assam", manufacturer := "Estate",
    blockchainRefHash := none, stages := [] }

/-- A request creating `P1` with an uploaded certificate file. -/
def requestWithCert : AddRequest :=
  { body := bodyP1
    certFile := some { path := "uploads/c1", filename := "c1.pdf", originalname := "cert.pdf" }
    imageFile := none
    userEmail := "maker@example.org" }

/-- A request creating `P1` with no file and no caller-supplied reference. -/
def requestPlain : AddRequest :=
  { body := bodyP1, certFile := none, imageFile := none, userEmail := "maker@example.org" }

/-- A stored product with only a legacy `blockchainRefHash`. -/
def legacyProduct : Product :=
  { productId := "L1", name := "Rice", origin := "Punjab", manufacturer := "Mill",
    certificationHash := "", blockchainRefHash := "0xabc", stages := ["made"],
    createdByWallet := "maker@example.org", certFile := none, imageFile := none }

/-- A value with integers nested three levels deep, in enumeration order. -/
def nestedRecord : List (String × JsValue) :=
  [("0", .array [.object [("amount", .bigint 123456789012345678901234567890),
                          ("ok", .bool true)], .null]),
   ("id", .bigint (-7))]

/-! ## Lemmas on the value normaliser -/

theorem convertedItems_eq_map (xs : List JsValue) :
    convertedItems xs = xs.map converted := by
  induction xs with
  | nil => simp [convertedItems]
  | cons x xs ih => simp [convertedItems, ih]

theorem convertedEntries_eq_map (es : List (String × JsValue)) :
    convertedEntries es = es.map (fun kv => (kv.1, converted kv.2)) := by
  induction es with
  | nil => simp [convertedEntries]
  | cons e es ih =>
    obtain ⟨k, v⟩ := e
    simp [convertedEntries, ih]

theorem convertedEntries_keys (es : List (String × JsValue)) :
    (convertedEntries es).map Prod.fst = es.map Prod.fst := by
  rw [convertedEntries_eq_map]
  simp [List.map_map, Function.comp_def]

theorem comesBefore_asymm {a b : String} (h : comesBefore a b = true) :
    comesBefore b a = false := by
  unfold comesBefore at h ⊢
  cases ha : arrayIndex? a <;> cases hb : arrayIndex? b <;> simp_all
  omega

theorem comesBefore_trans {a b c : String} (hab : comesBefore a b = true)
    (hbc : comesBefore b c = true) : comesBefore a c = true := by
  unfold comesBefore at hab hbc ⊢
  cases ha : arrayIndex? a <;> cases hb : arrayIndex? b <;> cases hc : arrayIndex? c <;>
    simp_all
  omega

theorem mem_createDataProperty {k : String} {v : JsValue} {x : String × JsValue} :
    ∀ {o : List (String × JsValue)}, x ∈ createDataProperty k v o → x = (k, v) ∨ x ∈ o
  | [], h => by simpa [createDataProperty] using h
  | (k', v') :: rest, h => by
    unfold createDataProperty at h
    split_ifs at h with h1 h2
    · rcases List.mem_cons.1 h with h | h
      · exact Or.inl h
      · exact Or.inr (List.mem_cons_of_mem _ h)
    · rcases List.mem_cons.1 h with h | h
      · exact Or.inl h
      · exact Or.inr h
    · rcases List.mem_cons.1 h with h | h
      · exact Or.inr (h ▸ List.mem_cons_self _ _)
      · rcases mem_createDataProperty h with h | h
        · exact Or.inl h
        · exact Or.inr (List.mem_cons_of_mem _ h)

theorem mem_keys_createDataProperty {k : String} {v : JsValue} {a : String}
    {o : List (String × JsValue)} (h : a ∈ (createDataProperty k v o).map Prod.fst) :
    a = k ∨ a ∈ o.map Prod.fst := by
  obtain ⟨x, hx, rfl⟩ := List.mem_map.1 h
  rcases mem_createDataProperty hx with h | h
  · exact Or.inl (by rw [h])
  · exact Or.inr (List.mem_map.2 ⟨x, h, rfl⟩)

theorem enumerationOrder_createDataProperty (k : String) (v : JsValue) :
    ∀ (o : List (String × JsValue)), EnumerationOrder (o.map Prod.fst) →
      EnumerationOrder ((createDataProperty k v o).map Prod.fst)
  | [], _ => by simp [createDataProperty, EnumerationOrder]
  | (k', v') :: rest, h => by
    unfold EnumerationOrder at h
    simp only [List.map_cons, List.pairwise_cons] at h
    obtain ⟨hhead, htail⟩ := h
    unfold createDataProperty
    split_ifs with h1 h2
    · subst h1
      unfold EnumerationOrder
      simp only [List.map_cons, List.pairwise_cons]
      exact ⟨hhead, htail⟩
    · unfold EnumerationOrder
      simp only [List.map_cons, List.pairwise_cons]
      refine ⟨?_, hhead, htail⟩
      intro b hb
      rcases List.mem_cons.1 hb with hb | hb
      · subst hb
        exact ⟨fun h => h1 h.symm, comesBefore_asymm h2⟩
      · obtain ⟨hne, hnb⟩ := hhead b hb
        refine ⟨?_, ?_⟩
        · rintro rfl
          rw [h2] at hnb
          exact Bool.noConfusion hnb
        · cases hbk : comesBefore b k with
          | false => rfl
          | true =>
            rw [comesBefore_trans hbk h2] at hnb
            exact Bool.noConfusion hnb
    · have ih := enumerationOrder_createDataProperty k v rest htail
      unfold EnumerationOrder at ih ⊢
      simp only [List.map_cons, List.pairwise_cons]
      refine ⟨?_, ih⟩
      intro b hb
      rcases mem_keys_createDataProperty hb with hb | hb
      · subst hb
        exact ⟨h1, by simpa using h2⟩
      · exact hhead b hb

theorem enumerationOrder_foldl (es : List (String × JsValue)) :
    ∀ (o : List (String × JsValue)), EnumerationOrder (o.map Prod.fst) →
      EnumerationOrder
        ((es.foldl (fun o kv => createDataProperty kv.1 kv.2 o) o).map Prod.fst) := by
  induction es with
  | nil => intro o h; simpa using h
  | cons e es ih =>
    intro o h
    simp only [List.foldl_cons]
    exact ih _ (enumerationOrder_createDataProperty e.1 e.2 o h)

theorem enumerationOrder_fromEntries (es : List (String × JsValue)) :
    EnumerationOrder ((fromEntries es).map Prod.fst) :=
  enumerationOrder_foldl es [] (by simp [EnumerationOrder])

theorem mem_foldl_createDataProperty {x : String × JsValue} (es : List (String × JsValue)) :
    ∀ (o : List (String × JsValue)),
      x ∈ es.foldl (fun o kv => createDataProperty kv.1 kv.2 o) o → x ∈ o ∨ x ∈ es := by
  induction es with
  | nil => intro o h; exact Or.inl (by simpa using h)
  | cons e es ih =>
    intro o h
    simp only [List.foldl_cons] at h
    rcases ih _ h with h | h
    · rcases mem_createDataProperty h with h | h
      · exact Or.inr (h ▸ List.mem_cons_self _ _)
      · exact Or.inl h
    · exact Or.inr (List.mem_cons_of_mem _ h)

theorem mem_fromEntries {x : String × JsValue} {es : List (String × JsValue)}
    (h : x ∈ fromEntries es) : x ∈ es := by
  rcases mem_foldl_createDataProperty es [] h with h | h
  · simp at h
  · exact h

theorem createDataProperty_snoc (k : String) (v : JsValue) :
    ∀ (o : List (String × JsValue)), EnumerationOrder (o.map Prod.fst ++ [k]) →
      createDataProperty k v o = o ++ [(k, v)]
  | [], _ => by simp [createDataProperty]
  | (k', v') :: rest, h => by
    unfold EnumerationOrder at h
    simp only [List.map_cons, List.cons_append, List.pairwise_cons] at h
    obtain ⟨hhead, htail⟩ := h
    obtain ⟨hne, hnb⟩ := hhead k (by simp)
    unfold createDataProperty
    rw [if_neg hne, if_neg (by simp [hnb])]
    rw [createDataProperty_snoc k v rest htail]
    simp

theorem foldl_createDataProperty_of_order (es : List (String × JsValue)) :
    ∀ (o : List (String × JsValue)), EnumerationOrder ((o ++ es).map Prod.fst) →
      es.foldl (fun o kv => createDataProperty kv.1 kv.2 o) o = o ++ es := by
  induction es with
  | nil => intro o _; simp
  | cons e es ih =>
    intro o h
    simp only [List.foldl_cons]
    have hpre : EnumerationOrder (o.map Prod.fst ++ [e.1]) := by
      unfold EnumerationOrder at h ⊢
      have hsub : List.Sublist (o.map Prod.fst ++ [e.1]) ((o ++ e :: es).map Prod.fst) := by
        simp only [List.map_append, List.map_cons]
        exact List.Sublist.append_left (List.Sublist.cons₂ _ (List.nil_sublist _)) _
      exact h.sublist hsub
    rw [createDataProperty_snoc e.1 e.2 o hpre]
    have h2 : EnumerationOrder ((o ++ [(e.1, e.2)] ++ es).map Prod.fst) := by
      simpa using h
    rw [ih _ h2]
    simp

theorem fromEntries_of_order {es : List (String × JsValue)}
    (h : EnumerationOrder (es.map Prod.fst)) : fromEntries es = es := by
  have := foldl_createDataProperty_of_order es [] (by simpa using h)
  simpa [fromEntries] using this

theorem hasBigIntEntries_eq_false {es : List (String × JsValue)} :
    hasBigIntEntries es = false ↔ ∀ x ∈ es, hasBigInt x.2 = false := by
  induction es with
  | nil => simp [hasBigIntEntries]
  | cons e es ih =>
    obtain ⟨k, v⟩ := e
    simp [hasBigIntEntries, ih]

theorem wellFormedEntries_iff {es : List (String × JsValue)} :
    WellFormedEntries es ↔ ∀ x ∈ es, WellFormed x.2 := by
  induction es with
  | nil => simp [WellFormedEntries]
  | cons e es ih =>
    obtain ⟨k, v⟩ := e
    simp [WellFormedEntries, ih]

mutual
theorem hasBigInt_converted : ∀ (v : JsValue), hasBigInt (converted v) = false
  | .bigint _ => by simp [converted, hasBigInt]
  | .array items => by
    simp only [converted, hasBigInt]
    exact hasBigIntItems_converted items
  | .object entries => by
    simp only [converted, hasBigInt]
    rw [hasBigIntEntries_eq_false]
    intro x hx
    exact hasBigIntEntries_eq_false.1 (hasBigIntEntries_converted entries) x
      (mem_fromEntries hx)
  | .null => by simp [converted, hasBigInt]
  | .undefined => by simp [converted, hasBigInt]
  | .bool _ => by simp [converted, hasBigInt]
  | .number _ => by simp [converted, hasBigInt]
  | .string _ => by simp [converted, hasBigInt]
theorem hasBigIntItems_converted :
    ∀ (xs : List JsValue), hasBigIntItems (convertedItems xs) = false
  | [] => by simp [convertedItems, hasBigIntItems]
  | x :: xs => by
    simp [convertedItems, hasBigIntItems, hasBigInt_converted x,
      hasBigIntItems_converted xs]
theorem hasBigIntEntries_converted :
    ∀ (es : List (String × JsValue)), hasBigIntEntries (convertedEntries es) = false
  | [] => by simp [convertedEntries, hasBigIntEntries]
  | (_, v) :: rest => by
    simp [convertedEntries, hasBigIntEntries, hasBigInt_converted v,
      hasBigIntEntries_converted rest]
end

mutual
theorem wellFormed_converted : ∀ (v : JsValue), WellFormed (converted v)
  | .bigint _ => by simp [converted, WellFormed]
  | .array items => by
    simp only [converted, WellFormed]
    exact wellFormedItems_converted items
  | .object entries => by
    simp only [converted, WellFormed]
    refine ⟨enumerationOrder_fromEntries _, ?_⟩
    rw [wellFormedEntries_iff]
    intro x hx
    exact wellFormedEntries_iff.1 (wellFormedEntries_converted entries) x
      (mem_fromEntries hx)
  | .null => by simp [converted, WellFormed]
  | .undefined => by simp [converted, WellFormed]
  | .bool _ => by simp [converted, WellFormed]
  | .number _ => by simp [converted, WellFormed]
  | .string _ => by simp [converted, WellFormed]
theorem wellFormedItems_converted :
    ∀ (xs : List JsValue), WellFormedItems (convertedItems xs)
  | [] => by simp [convertedItems, WellFormedItems]
  | x :: xs => by
    simp only [convertedItems, WellFormedItems]
    exact ⟨wellFormed_converted x, wellFormedItems_converted xs⟩
theorem wellFormedEntries_converted :
    ∀ (es : List (String × JsValue)), WellFormedEntries (convertedEntries es)
  | [] => by simp [convertedEntries, WellFormedEntries]
  | (_, v) :: rest => by
    simp only [convertedEntries, WellFormedEntries]
    exact ⟨wellFormed_converted v, wellFormedEntries_converted rest⟩
end

mutual
theorem converted_fixed :
    ∀ (v : JsValue), hasBigInt v = false → WellFormed v → converted v = v
  | .bigint _, h, _ => by simp [hasBigInt] at h
  | .array items, h, hw => by
    simp only [hasBigInt] at h
    simp only [WellFormed] at hw
    simp only [converted]
    rw [convertedItems_fixed items h hw]
  | .object entries, h, hw => by
    simp only [hasBigInt] at h
    simp only [WellFormed] at hw
    simp only [converted]
    rw [convertedEntries_fixed entries h hw.2, fromEntries_of_order hw.1]
  | .null, _, _ => by simp [converted]
  | .undefined, _, _ => by simp [converted]
  | .bool _, _, _ => by simp [converted]
  | .number _, _, _ => by simp [converted]
  | .string _, _, _ => by simp [converted]
theorem convertedItems_fixed :
    ∀ (xs : List JsValue), hasBigIntItems xs = false → WellFormedItems xs →
      convertedItems xs = xs
  | [], _, _ => by simp [convertedItems]
  | x :: xs, h, hw => by
    simp only [hasBigIntItems, Bool.or_eq_false_iff] at h
    simp only [WellFormedItems] at hw
    simp only [convertedItems]
    rw [converted_fixed x h.1 hw.1, convertedItems_fixed xs h.2 hw.2]
theorem convertedEntries_fixed :
    ∀ (es : List (String × JsValue)), hasBigIntEntries es = false → WellFormedEntries es →
      convertedEntries es = es
  | [], _, _ => by simp [convertedEntries]
  | (k, v) :: rest, h, hw => by
    simp only [hasBigIntEntries, Bool.or_eq_false_iff] at h
    simp only [WellFormedEntries] at hw
    simp only [convertedEntries]
    rw [converted_fixed v h.1 hw.1, convertedEntries_fixed rest h.2 hw.2]
end

theorem height_pos (v : JsValue) : 0 < height v := by
  cases v <;> simp [height]

theorem heightItems_le {xs : List JsValue} {n : Nat} :
    heightItems xs ≤ n ↔ ∀ x ∈ xs, height x ≤ n := by
  induction xs with
  | nil => simp [heightItems]
  | cons x xs ih => simp [heightItems, ih]

theorem heightEntries_le {es : List (String × JsValue)} {n : Nat} :
    heightEntries es ≤ n ↔ ∀ x ∈ es, height x.2 ≤ n := by
  induction es with
  | nil => simp [heightEntries]
  | cons e es ih =>
    obtain ⟨k, v⟩ := e
    simp [heightEntries, ih]

mutual
theorem height_converted_le : ∀ (v : JsValue), height (converted v) ≤ height v
  | .bigint _ => by simp [converted, height]
  | .array items => by
    simp only [converted, height]
    exact Nat.succ_le_succ (heightItems_converted_le items)
  | .object entries => by
    simp only [converted, height]
    refine Nat.succ_le_succ ?_
    rw [heightEntries_le]
    intro x hx
    exact Nat.le_trans (heightEntries_le.1 (Nat.le_refl _) x (mem_fromEntries hx))
      (heightEntries_converted_le entries)
  | .null => by simp [converted]
  | .undefined => by simp [converted]
  | .bool _ => by simp [converted]
  | .number _ => by simp [converted]
  | .string _ => by simp [converted]
theorem heightItems_converted_le :
    ∀ (xs : List JsValue), heightItems (convertedItems xs) ≤ heightItems xs
  | [] => by simp [convertedItems]
  | x :: xs => by
    simp only [convertedItems, heightItems]
    exact max_le_max (height_converted_le x) (heightItems_converted_le xs)
theorem heightEntries_converted_le :
    ∀ (es : List (String × JsValue)), heightEntries (convertedEntries es) ≤ heightEntries es
  | [] => by simp [convertedEntries]
  | (_, v) :: rest => by
    simp only [convertedEntries, heightEntries]
    exact max_le_max (height_converted_le v) (heightEntries_converted_le rest)
end

mutual
theorem bigIntToString_eq : ∀ (v : JsValue) (s : Nat),
    bigIntToString s v =
      if height v ≤ s then .ok (converted v) else .error rangeError
  | .bigint _, s => by cases s <;> simp [bigIntToString, height, converted]
  | .array items, s => by
    cases s with
    | zero => simp [bigIntToString, height]
    | succ s =>
      simp only [bigIntToString, height, converted, bigIntToStringItems_eq items s,
        Nat.add_le_add_iff_right]
      by_cases h : heightItems items ≤ s <;> simp [h]
  | .object entries, s => by
    cases s with
    | zero => simp [bigIntToString, height]
    | succ s =>
      simp only [bigIntToString, height, converted, bigIntToStringEntries_eq entries s,
        Nat.add_le_add_iff_right]
      by_cases h : heightEntries entries ≤ s <;> simp [h]
  | .null, s => by cases s <;> simp [bigIntToString, height, converted]
  | .undefined, s => by cases s <;> simp [bigIntToString, height, converted]
  | .bool _, s => by cases s <;> simp [bigIntToString, height, converted]
  | .number _, s => by cases s <;> simp [bigIntToString, height, converted]
  | .string _, s => by cases s <;> simp [bigIntToString, height, converted]
theorem bigIntToStringItems_eq : ∀ (xs : List JsValue) (s : Nat),
    bigIntToStringItems s xs =
      if heightItems xs ≤ s then .ok (convertedItems xs) else .error rangeError
  | [], s => by simp [bigIntToStringItems, heightItems, convertedItems]
  | x :: xs, s => by
    simp only [bigIntToStringItems, heightItems, convertedItems, bigIntToString_eq x s,
      bigIntToStringItems_eq xs s, max_le_iff]
    by_cases h1 : height x ≤ s <;> by_cases h2 : heightItems xs ≤ s <;> simp [h1, h2]
theorem bigIntToStringEntries_eq : ∀ (es : List (String × JsValue)) (s : Nat),
    bigIntToStringEntries s es =
      if heightEntries es ≤ s then .ok (convertedEntries es) else .error rangeError
  | [], s => by simp [bigIntToStringEntries, heightEntries, convertedEntries]
  | (k, v) :: rest, s => by
    simp only [bigIntToStringEntries, heightEntries, convertedEntries, bigIntToString_eq v s,
      bigIntToStringEntries_eq rest s, max_le_iff]
    by_cases h1 : height v ≤ s <;> by_cases h2 : heightEntries rest ≤ s <;> simp [h1, h2]
end

theorem height_nestArrays (n : Nat) (v : JsValue) : height (nestArrays n v) = n + height v := by
  induction n with
  | zero => simp [nestArrays]
  | succ n ih => simp [nestArrays, height, heightItems, ih]; omega

theorem hasBigInt_nestArrays (n : Nat) (v : JsValue) :
    hasBigInt (nestArrays n v) = hasBigInt v := by
  induction n with
  | zero => simp [nestArrays]
  | succ n ih => simp [nestArrays, hasBigInt, hasBigIntItems, ih]

/-! ## The value normaliser: claims C8 and C9 -/

/-- C8, as stated, fails: on the integer `1` wrapped in 5000 nested arrays, a
finite value tree that needs 5001 nested activations, `bigIntToString` run
with room for 3221 activations throws `RangeError` and returns no result. -/
theorem bigIntToString_deep_counterexample :
    height (nestArrays 5000 (.bigint 1)) = 5001 ∧
    bigIntToString 3221 (nestArrays 5000 (.bigint 1)) = .error rangeError := by
  have hh : height (nestArrays 5000 (.bigint 1)) = 5001 := by
    rw [height_nestArrays]
    rfl
  refine ⟨hh, ?_⟩
  rw [bigIntToString_eq, hh]
  rfl

/-- C8, amended: with room for `s` nested activations on the call stack,
`bigIntToString` returns a result exactly for the value trees whose walk needs
at most `s` activations, and throws `RangeError` for the deeper ones. Where it
returns, it is the structural map that turns integer leaves into decimal
strings: an integer leaf becomes its decimal string; a sequence becomes a
sequence of the same length whose element `i` is the result for element `i`;
a mapping whose keys are listed in enumeration order becomes a mapping with the
same keys in the same order, each value replaced by its result; every other
scalar, `null` included, is returned unchanged; and the result has no integer
leaf. -/
theorem bigIntToString_structural (s : Nat) :
    (∀ v : JsValue, height v ≤ s →
      ∃ r, bigIntToString s v = .ok r ∧ hasBigInt r = false) ∧
    (∀ v : JsValue, s < height v → bigIntToString s v = .error rangeError) ∧
    (∀ i : Int, bigIntToString (s + 1) (.bigint i) = .ok (.string (toString i))) ∧
    (∀ items : List JsValue, height (.array items) ≤ s + 1 →
      ∃ out, bigIntToString (s + 1) (.array items) = .ok (.array out) ∧
        out.length = items.length ∧
        List.Forall₂ (fun x y => bigIntToString s x = .ok y) items out) ∧
    (∀ entries : List (String × JsValue), EnumerationOrder (entries.map Prod.fst) →
      height (.object entries) ≤ s + 1 →
      ∃ out, bigIntToString (s + 1) (.object entries) = .ok (.object out) ∧
        out.length = entries.length ∧
        List.Forall₂ (fun kv kv' => kv'.1 = kv.1 ∧ bigIntToString s kv.2 = .ok kv'.2)
          entries out) ∧
    (bigIntToString (s + 1) .null = .ok .null ∧
      bigIntToString (s + 1) .undefined = .ok .undefined ∧
      (∀ b, bigIntToString (s + 1) (.bool b) = .ok (.bool b)) ∧
      (∀ bits, bigIntToString (s + 1) (.number bits) = .ok (.number bits)) ∧
      (∀ t, bigIntToString (s + 1) (.string t) = .ok (.string t))) := by
  refine ⟨?_, ?_, ?_, ?_, ?_, ?_⟩
  · intro v hv
    exact ⟨converted v, by rw [bigIntToString_eq, if_pos hv], hasBigInt_converted v⟩
  · intro v hv
    rw [bigIntToString_eq, if_neg (Nat.not_le.2 hv)]
  · intro i
    simp [bigIntToString]
  · intro items hh
    refine ⟨items.map converted, ?_, by simp, ?_⟩
    · rw [bigIntToString_eq, if_pos hh]
      simp [converted, convertedItems_eq_map]
    · rw [List.forall₂_map_right_iff, List.forall₂_same]
      intro x hx
      have hx' : height x ≤ s :=
        heightItems_le.1 (Nat.le_of_succ_le_succ (by simpa [height] using hh)) x hx
      rw [bigIntToString_eq, if_pos hx']
  · intro entries hk hh
    refine ⟨entries.map (fun kv => (kv.1, converted kv.2)), ?_, by simp, ?_⟩
    · have hk' : EnumerationOrder ((convertedEntries entries).map Prod.fst) := by
        rw [convertedEntries_keys]; exact hk
      rw [bigIntToString_eq, if_pos hh]
      simp only [converted]
      rw [fromEntries_of_order hk', convertedEntries_eq_map]
    · rw [List.forall₂_map_right_iff, List.forall₂_same]
      intro x hx
      have hx' : height x.2 ≤ s :=
        heightEntries_le.1 (Nat.le_of_succ_le_succ (by simpa [height] using hh)) x hx
      exact ⟨rfl, by rw [bigIntToString_eq, if_pos hx']⟩
  · simp [bigIntToString]

/-- Witness for C8 amended: a record with integers nested three levels deep,
whose keys are in enumeration order, fits on a call stack with room for 3221
activations and is mapped leaf by leaf. -/
theorem bigIntToString_structural_witness :
    (height (.object nestedRecord) ≤ 3221 ∧
      ∃ r, bigIntToString 3221 (.object nestedRecord) = .ok r ∧ hasBigInt r = false) ∧
    (EnumerationOrder (nestedRecord.map Prod.fst) ∧
      ∃ out, bigIntToString 3221 (.object nestedRecord) = .ok (.object out) ∧
        out.length = nestedRecord.length ∧
        List.Forall₂ (fun kv kv' => kv'.1 = kv.1 ∧ bigIntToString 3220 kv.2 = .ok kv'.2)
          nestedRecord out) ∧
    bigIntToString 3221 (.object nestedRecord) =
      .ok (.object [("0", .array [.object [("amount", .string "123456789012345678901234567890"),
                                           ("ok", .bool true)], .null]),
                    ("id", .string "-7")]) :=
  ⟨⟨by decide, (bigIntToString_structural 3221).1 _ (by decide)⟩,
   ⟨by decide, (bigIntToString_structural 3220).2.2.2.2.1 nestedRecord (by decide) (by decide)⟩,
   by rfl⟩

/-- C9: `bigIntToString` is idempotent: whatever room the call stack has, a
second pass over the result of a first pass returns that result unchanged, and
when the first pass throws there is no result to pass on. -/
theorem bigIntToString_idempotent (s : Nat) (v : JsValue) :
    (bigIntToString s v).bind (bigIntToString s) = bigIntToString s v := by
  rw [bigIntToString_eq v s]
  by_cases h : height v ≤ s
  · rw [if_pos h]
    show bigIntToString s (converted v) = .ok (converted v)
    rw [bigIntToString_eq, if_pos (Nat.le_trans (height_converted_le v) h),
      converted_fixed _ (hasBigInt_converted v) (wellFormed_converted v)]
  · rw [if_neg h]
    rfl

/-! ## Lemmas on the document store -/

theorem orElse_orElse_empty (supplied : Option String) (b : String) :
    orElse (some (orElse supplied "")) b = orElse supplied b := by
  cases supplied with
  | none => simp [orElse]
  | some s => by_cases h : s = "" <;> simp [orElse, h]

theorem findById_updateFirst (id stage : String) (ref : Option String) :
    ∀ (db : List Product) (p : Product), findById db id = some p →
      findById (updateFirst id stage ref db) id = some (applyUpdate stage ref p)
  | [], _, h => by simp [findById] at h
  | q :: rest, p, h => by
    unfold findById at h ⊢
    unfold updateFirst
    by_cases hq : q.productId = id
    · simp only [hq, if_true, List.find?_cons, decide_True] at h ⊢
      have hqp : q = p := by simpa using h
      subst hqp
      have hid : (applyUpdate stage ref q).productId = id := hq
      simp [hid]
    · simp only [hq, if_false, List.find?_cons, decide_False] at h ⊢
      exact findById_updateFirst id stage ref rest p h

theorem updateProduct_found {w : World} {id stage : String} {db : List Product} {p : Product}
    (hstage : stage ≠ "") (hstore : w.storeError = none) (hfound : findById db id = some p) :
    (updateProduct w ⟨id, some stage⟩ db).store =
        updateFirst id stage (orUndefined (attempt w.updateStageOnChain)) db ∧
      (updateProduct w ⟨id, some stage⟩ db).response =
        .updated (applyUpdate stage (orUndefined (attempt w.updateStageOnChain)) p)
          (attempt w.updateStageOnChain) := by
  unfold findById at hfound
  simp [updateProduct, orUndefined, hstage, findOneAndUpdate, hstore, hfound]

theorem findById_save {w : World} {db db' : List Product} {p : Product}
    (h : save w db p = .ok db') : db' = db ++ [p] ∧ findById db' p.productId = some p := by
  unfold save at h
  cases hs : w.storeError with
  | some e => simp [hs] at h
  | none =>
    simp only [hs] at h
    split_ifs at h with hdup
    have hdb : db' = db ++ [p] := by
      injection h with h
      exact h.symm
    refine ⟨hdb, ?_⟩
    subst hdb
    unfold findById
    have hnone : db.find? (fun q => decide (q.productId = p.productId)) = none := by
      rw [List.find?_eq_none]
      intro q hq hqp
      exact hdup (List.any_eq_true.2 ⟨q, hq, hqp⟩)
    simp [List.find?_append, hnone]

/-! ## Creating a product: claims C1, C2 and C10 -/

/-- C1: `addProduct` succeeds and leaves the product stored exactly when
`product.save()` succeeds, whatever the ledger call `w.addProductOnChain` and
the QR rendering `w.generateQRCode` answer: a successful save gives the 201
response carrying the saved product, which is then found in the store under its
`productId`; a failed save gives the 500 response and leaves the store as it
was. -/
theorem addProduct_succeeds_iff_saved (w : World) (req : AddRequest) (db : List Product) :
    (∀ db', save w db (newProduct w req (attempt w.addProductOnChain)) = .ok db' →
      (∃ tx, (addProduct w req db).response =
        .created (newProduct w req (attempt w.addProductOnChain))
          (attempt w.generateQRCode) tx) ∧
      (addProduct w req db).store = db' ∧
      findById (addProduct w req db).store req.body.productId =
        some (newProduct w req (attempt w.addProductOnChain))) ∧
    (∀ e, save w db (newProduct w req (attempt w.addProductOnChain)) = .error e →
      (addProduct w req db).response = .error 500 e ∧ (addProduct w req db).store = db) ∧
    ((∃ p qr tx, (addProduct w req db).response = .created p qr tx) ↔
      ∃ db', save w db (newProduct w req (attempt w.addProductOnChain)) = .ok db') := by
  refine ⟨?_, ?_, ?_⟩
  · intro db' h
    have hfind := (findById_save h).2
    have hout : addProduct w req db =
        ⟨.created (newProduct w req (attempt w.addProductOnChain)) (attempt w.generateQRCode)
            (orElse (attempt w.addProductOnChain)
              (orElse (some (certificationHashOf w req)) ("mock-hash-" ++ toString w.now2))),
          db', [LedgerCall.addProductOnChain (onChainFields w req)]⟩ := by
      simp only [addProduct, h]
    rw [hout]
    exact ⟨⟨_, rfl⟩, rfl, hfind⟩
  · intro e h
    have hout : addProduct w req db =
        ⟨.error 500 e, db, [LedgerCall.addProductOnChain (onChainFields w req)]⟩ := by
      simp only [addProduct, h]
    rw [hout]
    exact ⟨rfl, rfl⟩
  · cases h : save w db (newProduct w req (attempt w.addProductOnChain)) with
    | ok db' => simp [addProduct, h]
    | error e => simp [addProduct, h]

/-- Witness for C1: with the ledger down and the store empty, creating `P1`
with a certificate is saved and answered with the saved product; with the
ledger up and the QR renderer failing it is saved as well. -/
theorem addProduct_succeeds_iff_saved_witness :
    findById (addProduct ledgerDown requestWithCert []).store "P1" =
        some (newProduct ledgerDown requestWithCert none) ∧
      findById (addProduct ledgerUp requestPlain []).store "P1" =
        some (newProduct ledgerUp requestPlain (some "tx-41")) :=
  ⟨((addProduct_succeeds_iff_saved ledgerDown requestWithCert []).1 _ rfl).2.2,
   ((addProduct_succeeds_iff_saved ledgerUp requestPlain []).1 _ rfl).2.2⟩

/-- C2, as stated, fails: creating `P1` with certificate bytes `CERT-DATA`, no
caller-supplied reference and the ledger down stores the digest of the
certificate as `blockchainRefHash`, which is not a placeholder and differs
from the fallback the claim describes. -/
theorem addProduct_ledger_failure_ref_counterexample :
    ledgerDown.addProductOnChain = .error "ledger unreachable" ∧
    (findById (addProduct ledgerDown requestWithCert []).store "P1").map
        Product.certificationHash = some (sampleDigest certData) ∧
    (findById (addProduct ledgerDown requestWithCert []).store "P1").map
        Product.blockchainRefHash = some (sampleDigest certData) ∧
    isPlaceholder (sampleDigest certData) = false ∧
    sampleDigest certData ≠
      specFallbackRef requestWithCert.body.blockchainRefHash ledgerDown.now1 := by
  refine ⟨rfl, by decide, by decide, by decide, by decide⟩

/-- C2, amended: when the ledger call fails and the product is saved, the
stored `blockchainRefHash` is the certification hash when that is non-empty and
the placeholder `mock-hash-` followed by the clock reading otherwise. With a
certificate file uploaded and read, the certification hash is the digest of its
bytes; with no certificate file, or one that cannot be read, it is the
caller-supplied `blockchainRefHash` (empty when none was sent), so that the
stored reference is the fallback of the specification. -/
theorem addProduct_ledger_failure_ref (w : World) (req : AddRequest) (db : List Product)
    (e : String) (p : Product) (qr : Option String) (tx : String)
    (hledger : w.addProductOnChain = .error e)
    (hresp : (addProduct w req db).response = .created p qr tx) :
    findById (addProduct w req db).store req.body.productId = some p ∧
    (∀ f bytes, req.certFile = some f → w.readFileSync = .ok bytes →
      p.certificationHash = w.hashString bytes ∧
      p.blockchainRefHash =
        orElse (some (w.hashString bytes)) ("mock-hash-" ++ toString w.now1)) ∧
    ((req.certFile = none ∨ ∃ err, w.readFileSync = .error err) →
      p.certificationHash = orElse req.body.blockchainRefHash "" ∧
      p.blockchainRefHash = specFallbackRef req.body.blockchainRefHash w.now1) := by
  cases hs : save w db (newProduct w req (attempt w.addProductOnChain)) with
  | error err => simp [addProduct, hs] at hresp
  | ok db' =>
    have hfind := (findById_save hs).2
    simp only [addProduct, hs] at hresp hfind ⊢
    have hp : newProduct w req (attempt w.addProductOnChain) = p := by
      injection hresp
    subst hp
    have key : ∀ ph : String,
        orElse (attempt w.addProductOnChain)
            (orElse (some (orElse req.body.blockchainRefHash "")) ph) =
          orElse req.body.blockchainRefHash ph := by
      intro ph
      rw [hledger, ← orElse_orElse_empty req.body.blockchainRefHash ph]
      rfl
    refine ⟨hfind, ?_, ?_⟩
    · intro f bytes hf hread
      have hch : certificationHashOf w req = w.hashString bytes := by
        simp only [certificationHashOf, hf, hread]
      refine ⟨hch, ?_⟩
      show orElse (attempt w.addProductOnChain)
        (orElse (some (certificationHashOf w req)) ("mock-hash-" ++ toString w.now1)) = _
      rw [hledger, hch]
      rfl
    · intro hcases
      have hch : certificationHashOf w req = orElse req.body.blockchainRefHash "" := by
        rcases hcases with hnone | ⟨err, hread⟩
        · simp only [certificationHashOf, hnone]
        · cases hc : req.certFile with
          | none => simp only [certificationHashOf, hc]
          | some f => simp only [certificationHashOf, hc, hread]
      refine ⟨hch, ?_⟩
      show orElse (attempt w.addProductOnChain)
        (orElse (some (certificationHashOf w req)) ("mock-hash-" ++ toString w.now1)) = _
      rw [hch]
      exact key _

/-- Witness for C2 amended: with the ledger down, the certificate `CERT-DATA`
gives a product whose `certificationHash` and `blockchainRefHash` are both the
digest of the certificate. -/
theorem addProduct_ledger_failure_ref_witness :
    ledgerDown.addProductOnChain = .error "ledger unreachable" ∧
    (newProduct ledgerDown requestWithCert none).certificationHash = sampleDigest certData ∧
    (newProduct ledgerDown requestWithCert none).blockchainRefHash =
      orElse (some (sampleDigest certData)) ("mock-hash-" ++ toString ledgerDown.now1) :=
  ⟨rfl,
    (addProduct_ledger_failure_ref ledgerDown requestWithCert [] "ledger unreachable"
      (newProduct ledgerDown requestWithCert none) (some "qr-image") "ff4c558c" rfl rfl).2.1
      _ certData rfl rfl⟩

/-- C10, at the failing input: with the ledger down, no certificate and no
caller-supplied reference, the product is stored with the placeholder built
from the first clock reading while the response reports as `blockchainTx` a
placeholder built from the second clock reading. -/
theorem addProduct_blockchainTx_differs :
    (addProduct ledgerDown requestPlain []).response =
      .created
        { productId := "P1", name := "Tea", origin := "Assam", manufacturer := "Estate",
          certificationHash := "", blockchainRefHash := "mock-hash-1700000000000",
          stages := [], createdByWallet := "maker@example.org", certFile := none,
          imageFile := none }
        (some "qr-image") "mock-hash-1700000000007" ∧
    "mock-hash-1700000000000" ≠ "mock-hash-1700000000007" :=
  ⟨by rfl, by decide⟩

/-! ## Appending a stage: claims C3 and C4 -/

/-- C3: `updateProduct` never shrinks or reorders `stages`. For an existing
product with stored stages `s` and any series of calls with non-empty stage
labels that the store carries out, each with its own ledger outcome (success
or failure), the stored stages afterwards are `s` followed by the labels in the
order of the calls, each once. -/
theorem updateProduct_appends_in_order (id : String) (calls : List AppendCall)
    (db : List Product) (p : Product)
    (hfound : findById db id = some p)
    (hcalls : ∀ c ∈ calls, c.stage ≠ "" ∧ c.world.storeError = none) :
    (findById (appendStages id calls db) id).map Product.stages =
      some (p.stages ++ calls.map AppendCall.stage) := by
  induction calls generalizing db p with
  | nil => simp [appendStages, hfound]
  | cons c cs ih =>
    obtain ⟨hstage, hstore⟩ := hcalls c (List.mem_cons_self _ _)
    have hstep := (updateProduct_found hstage hstore hfound).1
    have hnext := findById_updateFirst id c.stage
      (orUndefined (attempt c.world.updateStageOnChain)) db p hfound
    rw [← hstep] at hnext
    have := ih _ _ hnext (fun c' hc' => hcalls c' (List.mem_cons_of_mem _ hc'))
    simp only [appendStages, this]
    simp [applyUpdate]

/-- Witness for C3: on a store holding the legacy product with stages
`["made"]`, appending `shipped` with the ledger down and then `sold` with the
ledger up leaves the stages `["made", "shipped", "sold"]`. -/
theorem updateProduct_appends_in_order_witness :
    (findById (appendStages "L1" [⟨"shipped", ledgerDown⟩, ⟨"sold", ledgerUp⟩] [legacyProduct])
        "L1").map Product.stages = some (["made"] ++ ["shipped", "sold"]) :=
  updateProduct_appends_in_order "L1" [⟨"shipped", ledgerDown⟩, ⟨"sold", ledgerUp⟩]
    [legacyProduct] legacyProduct (by decide)
    (by
      intro c hc
      simp only [List.mem_cons, List.mem_singleton, List.not_mem_nil, or_false] at hc
      rcases hc with rfl | rfl
      · exact ⟨by decide, rfl⟩
      · exact ⟨by decide, rfl⟩)

/-- C4: `updateProduct` never overwrites an existing `blockchainRefHash` with
a missing value. For an existing product `p` and a non-empty stage, when the
ledger call fails and the store carries out the update, the stored product
afterwards is `p` with the stage appended and nothing else changed; its
`blockchainRefHash` is the one it had, and the response reports no
transaction reference. -/
theorem updateProduct_keeps_ref_on_ledger_failure (w : World) (id stage : String)
    (db : List Product) (p : Product) (e : String)
    (hfound : findById db id = some p) (hstage : stage ≠ "")
    (hstore : w.storeError = none) (hledger : w.updateStageOnChain = .error e) :
    findById (updateProduct w ⟨id, some stage⟩ db).store id =
      some { p with stages := p.stages ++ [stage] } ∧
    (findById (updateProduct w ⟨id, some stage⟩ db).store id).map Product.blockchainRefHash =
      some p.blockchainRefHash ∧
    (updateProduct w ⟨id, some stage⟩ db).response =
      .updated { p with stages := p.stages ++ [stage] } none := by
  obtain ⟨hst, hresp⟩ := updateProduct_found (w := w) hstage hstore hfound
  have hnext := findById_updateFirst id stage
    (orUndefined (attempt w.updateStageOnChain)) db p hfound
  rw [← hst] at hnext
  have happly : applyUpdate stage (orUndefined (attempt w.updateStageOnChain)) p =
      { p with stages := p.stages ++ [stage] } := by
    simp [applyUpdate, hledger, attempt, orUndefined]
  rw [happly] at hnext hresp
  refine ⟨hnext, by rw [hnext]; rfl, ?_⟩
  rw [hresp, hledger]
  rfl

/-- Witness for C4: appending `shipped` to the legacy product with the ledger
down keeps its reference `0xabc`. -/
theorem updateProduct_keeps_ref_on_ledger_failure_witness :
    (findById (updateProduct ledgerDown ⟨"L1", some "shipped"⟩ [legacyProduct]).store "L1").map
      Product.blockchainRefHash = some "0xabc" :=
  (updateProduct_keeps_ref_on_ledger_failure ledgerDown "L1" "shipped" [legacyProduct]
    legacyProduct "ledger unreachable" (by decide) (by decide) rfl rfl).2.1

/-! ## Not found and the ledger: claim C5 -/

/-- C5, as stated, fails: `updateProduct` for the unknown product `P404` with
the ledger up ends with `Product not found` after having attempted the ledger
write `updateStageOnChain`. -/
theorem notFound_after_ledger_write_counterexample :
    (updateProduct ledgerUp ⟨"P404", some "shipped"⟩ [legacyProduct]).response =
        .error 404 "Product not found" ∧
    (updateProduct ledgerUp ⟨"P404", some "shipped"⟩ [legacyProduct]).ledgerCalls =
        [.updateStageOnChain "P404" "shipped"] ∧
    ((updateProduct ledgerUp ⟨"P404", some "shipped"⟩ [legacyProduct]).ledgerCalls.any
        LedgerCall.isWrite) = true :=
  ⟨by rfl, by decide, by decide⟩

/-- C5, amended: `getProduct` and `getProductByCertHash` never attempt a ledger
write, and their `Product not found` result is reached without any ledger call.
`updateProduct` calls the ledger before it looks the product up: its `Product
not found` result follows exactly one attempted `updateStageOnChain` for the
requested id and stage, and leaves the store unchanged. -/
theorem notFound_ledger_calls (w : World) (db : List Product) :
    (∀ id, (∀ c ∈ (getProduct w id db).ledgerCalls, c.isWrite = false) ∧
      ((getProduct w id db).response = .error 404 "Product not found" →
        (getProduct w id db).ledgerCalls = [])) ∧
    (∀ h, (∀ c ∈ (getProductByCertHash w h db).ledgerCalls, c.isWrite = false) ∧
      ((getProductByCertHash w h db).response = .error 404 "Product not found" →
        (getProductByCertHash w h db).ledgerCalls = [])) ∧
    (∀ req, (updateProduct w req db).response = .error 404 "Product not found" →
      ∃ stage, req.stage = some stage ∧ stage ≠ "" ∧
        (updateProduct w req db).ledgerCalls = [.updateStageOnChain req.id stage] ∧
        (updateProduct w req db).store = db) := by
  refine ⟨?_, ?_, ?_⟩
  · intro id
    unfold getProduct findOne
    cases w.storeError with
    | some e => simp
    | none =>
      cases db.find? (fun p => decide (p.productId = id)) with
      | none => simp
      | some p => simp [replyWithOnChain, LedgerCall.isWrite]
  · intro h
    unfold getProductByCertHash findOne
    cases w.storeError with
    | some e => simp
    | none =>
      cases db.find? (fun p => decide (p.certificationHash = h)) with
      | some p => simp [replyWithOnChain, LedgerCall.isWrite]
      | none =>
        cases db.find? (fun p => decide (p.blockchainRefHash = h)) with
        | none => simp
        | some p => simp [replyWithOnChain, LedgerCall.isWrite]
  · intro req hresp
    unfold updateProduct at hresp ⊢
    cases hst : orUndefined req.stage with
    | none => simp [hst] at hresp
    | some stage =>
      have hreq : req.stage = some stage ∧ stage ≠ "" := by
        unfold orUndefined at hst
        cases hr : req.stage with
        | none => simp [hr] at hst
        | some s =>
          simp only [hr] at hst
          split_ifs at hst with hs
          injection hst with hst
          subst hst
          exact ⟨rfl, hs⟩
      refine ⟨stage, hreq.1, hreq.2, ?_⟩
      simp only [hst] at hresp ⊢
      unfold findOneAndUpdate at hresp ⊢
      cases hse : w.storeError with
      | some e => simp [hse] at hresp
      | none =>
        cases hf : db.find? (fun p => decide (p.productId = req.id)) with
        | none => simp
        | some p => simp [hse, hf] at hresp

/-- Witness for C5 amended: the unknown product `P404` is reported not found by
`getProduct` without a ledger call, and by `updateProduct` after one attempted
`updateStageOnChain`. -/
theorem notFound_ledger_calls_witness :
    (getProduct ledgerUp "P404" [legacyProduct]).ledgerCalls = [] ∧
    ∃ stage, (some "shipped" : Option String) = some stage ∧ stage ≠ "" ∧
      (updateProduct ledgerUp ⟨"P404", some "shipped"⟩ [legacyProduct]).ledgerCalls =
        [.updateStageOnChain "P404" stage] ∧
      (updateProduct ledgerUp ⟨"P404", some "shipped"⟩ [legacyProduct]).store =
        [legacyProduct] :=
  ⟨((notFound_ledger_calls ledgerUp [legacyProduct]).1 "P404").2 (by rfl),
   (notFound_ledger_calls ledgerUp [legacyProduct]).2.2 ⟨"P404", some "shipped"⟩ (by rfl)⟩

/-! ## Reading a product: claims C6 and C7 -/

theorem getProductByCertHash_of_cert {w : World} {h : String} {db : List Product}
    {p : Product} (hstore : w.storeError = none)
    (hcert : db.find? (fun q => decide (q.certificationHash = h)) = some p) :
    getProductByCertHash w h db = replyWithOnChain w p p.productId db := by
  simp [getProductByCertHash, findOne, hstore, hcert]

theorem getProductByCertHash_of_ref {w : World} {h : String} {db : List Product}
    {p : Product} (hstore : w.storeError = none)
    (hcert : db.find? (fun q => decide (q.certificationHash = h)) = none)
    (href : db.find? (fun q => decide (q.blockchainRefHash = h)) = some p) :
    getProductByCertHash w h db = replyWithOnChain w p p.productId db := by
  simp [getProductByCertHash, findOne, hstore, hcert, href]

theorem getProductByCertHash_of_none {w : World} {h : String} {db : List Product}
    (hstore : w.storeError = none)
    (hcert : db.find? (fun q => decide (q.certificationHash = h)) = none)
    (href : db.find? (fun q => decide (q.blockchainRefHash = h)) = none) :
    getProductByCertHash w h db = ⟨.error 404 "Product not found", db, []⟩ := by
  simp [getProductByCertHash, findOne, hstore, hcert, href]

theorem find?_isSome_of_mem {f : Product → Bool} {db : List Product} {q : Product}
    (hq : q ∈ db) (hf : f q = true) : ∃ p, db.find? f = some p := by
  cases hfind : db.find? f with
  | some p => exact ⟨p, rfl⟩
  | none => exact absurd hf (by simpa using List.find?_eq_none.1 hfind q hq)

/-- C6: `getProductByCertHash` looks up by `certificationHash` first and falls
back to `blockchainRefHash`. When the store answers: if some product has
`certificationHash = h`, the product returned is one of them (even if another
has `blockchainRefHash = h`); otherwise, if some product has
`blockchainRefHash = h`, the product returned is one of them; the result is
`Product not found` exactly when no product matches either way; and a store
holding one product with `blockchainRefHash = "0xabc"` and empty
`certificationHash` returns that product for `h = "0xabc"`. -/
theorem getProductByCertHash_lookup (w : World) (db : List Product) (h : String)
    (hstore : w.storeError = none) :
    ((∃ q ∈ db, q.certificationHash = h) →
      ∃ p onChain, p ∈ db ∧ p.certificationHash = h ∧
        (getProductByCertHash w h db).response = .found p onChain) ∧
    ((∀ q ∈ db, q.certificationHash ≠ h) → (∃ q ∈ db, q.blockchainRefHash = h) →
      ∃ p onChain, p ∈ db ∧ p.blockchainRefHash = h ∧
        (getProductByCertHash w h db).response = .found p onChain) ∧
    ((getProductByCertHash w h db).response = .error 404 "Product not found" ↔
      ∀ q ∈ db, q.certificationHash ≠ h ∧ q.blockchainRefHash ≠ h) ∧
    (∀ p : Product, p.blockchainRefHash = "0xabc" → p.certificationHash = "" →
      ∃ onChain, (getProductByCertHash w "0xabc" [p]).response = .found p onChain) := by
  refine ⟨?_, ?_, ?_, ?_⟩
  · rintro ⟨q, hq, hqh⟩
    obtain ⟨p, hp⟩ := find?_isSome_of_mem (f := fun q => decide (q.certificationHash = h))
      hq (by simpa using hqh)
    rw [getProductByCertHash_of_cert hstore hp]
    have hph : p.certificationHash = h := by simpa using List.find?_some hp
    exact ⟨p, _, List.mem_of_find?_eq_some hp, hph, rfl⟩
  · rintro hno ⟨q, hq, hqh⟩
    have hcert : db.find? (fun q => decide (q.certificationHash = h)) = none := by
      rw [List.find?_eq_none]
      intro x hx
      simpa using hno x hx
    obtain ⟨p, hp⟩ := find?_isSome_of_mem (f := fun q => decide (q.blockchainRefHash = h))
      hq (by simpa using hqh)
    rw [getProductByCertHash_of_ref hstore hcert hp]
    have hph : p.blockchainRefHash = h := by simpa using List.find?_some hp
    exact ⟨p, _, List.mem_of_find?_eq_some hp, hph, rfl⟩
  · cases hcert : db.find? (fun q => decide (q.certificationHash = h)) with
    | some p =>
      rw [getProductByCertHash_of_cert hstore hcert]
      constructor
      · intro hr
        simp [replyWithOnChain] at hr
      · intro hall
        have := (hall p (List.mem_of_find?_eq_some hcert)).1
        exact absurd (by simpa using List.find?_some hcert) this
    | none =>
      cases href : db.find? (fun q => decide (q.blockchainRefHash = h)) with
      | some p =>
        rw [getProductByCertHash_of_ref hstore hcert href]
        constructor
        · intro hr
          simp [replyWithOnChain] at hr
        · intro hall
          have := (hall p (List.mem_of_find?_eq_some href)).2
          exact absurd (by simpa using List.find?_some href) this
      | none =>
        rw [getProductByCertHash_of_none hstore hcert href]
        constructor
        · intro _ q hq
          rw [List.find?_eq_none] at hcert href
          exact ⟨by simpa using hcert q hq, by simpa using href q hq⟩
        · intro _
          rfl
  · intro p hr hc
    have hcert : [p].find? (fun q => decide (q.certificationHash = "0xabc")) = none := by
      simp [List.find?_cons, hc]
    have href : [p].find? (fun q => decide (q.blockchainRefHash = "0xabc")) = some p := by
      simp [List.find?_cons, hr]
    rw [getProductByCertHash_of_ref hstore hcert href]
    exact ⟨_, rfl⟩

/-- Witness for C6: the store holding only the legacy product returns it for
the hash `0xabc`. -/
theorem getProductByCertHash_lookup_witness :
    ledgerDown.storeError = none ∧
    ∃ onChain, (getProductByCertHash ledgerDown "0xabc" [legacyProduct]).response =
      .found legacyProduct onChain :=
  ⟨rfl, (getProductByCertHash_lookup ledgerDown [legacyProduct] "0xabc" rfl).2.2.2
    legacyProduct rfl rfl⟩

theorem replyWithOnChain_cases (w : World) (p : Product) (id : String) (db : List Product) :
    (replyWithOnChain w p id db).store = db ∧
    (∀ e, w.getProductOnChain = .error e →
      (replyWithOnChain w p id db).response = .found p .null) ∧
    (∀ v r, w.getProductOnChain = .ok v → bigIntToString w.callStack v = .ok r →
      (replyWithOnChain w p id db).response = .found p r) ∧
    (∀ v e, w.getProductOnChain = .ok v → bigIntToString w.callStack v = .error e →
      (replyWithOnChain w p id db).response = .found p v) := by
  refine ⟨rfl, ?_, ?_, ?_⟩
  · intro e he
    simp [replyWithOnChain, he]
  · intro v r hv hr
    simp [replyWithOnChain, hv, hr]
  · intro v e hv he
    simp [replyWithOnChain, hv, he]

/-- C7, at the failing input: the ledger read succeeds with the integer `1`
wrapped in 5000 nested arrays, `bigIntToString` throws on it for lack of call
stack, and both `getProduct` and `getProductByCertHash` hand the stored product
to `res.json` with `onChain` holding the value as the ledger returned it,
integer leaf included, neither `null` nor a normalised value. -/
theorem read_deep_onChain_raw :
    bigIntToString ledgerDeep.callStack (nestArrays 5000 (.bigint 1)) = .error rangeError ∧
    (getProduct ledgerDeep "L1" [legacyProduct]).response =
      .found legacyProduct (nestArrays 5000 (.bigint 1)) ∧
    (getProductByCertHash ledgerDeep "0xabc" [legacyProduct]).response =
      .found legacyProduct (nestArrays 5000 (.bigint 1)) ∧
    hasBigInt (nestArrays 5000 (.bigint 1)) = true := by
  have hthrow :
      bigIntToString ledgerDeep.callStack (nestArrays 5000 (.bigint 1)) = .error rangeError := by
    rw [bigIntToString_eq, height_nestArrays]
    rfl
  have hget : getProduct ledgerDeep "L1" [legacyProduct] =
      replyWithOnChain ledgerDeep legacyProduct "L1" [legacyProduct] := by
    have hfind : [legacyProduct].find? (fun p => decide (p.productId = "L1")) =
        some legacyProduct := by decide
    have hstore : ledgerDeep.storeError = none := rfl
    simp only [getProduct, findOne, hstore, hfind]
  have hcert : [legacyProduct].find? (fun q => decide (q.certificationHash = "0xabc")) =
      none := by decide
  have href : [legacyProduct].find? (fun q => decide (q.blockchainRefHash = "0xabc")) =
      some legacyProduct := by decide
  refine ⟨hthrow, ?_, ?_, ?_⟩
  · rw [hget]
    exact (replyWithOnChain_cases ledgerDeep legacyProduct "L1" [legacyProduct]).2.2.2
      _ _ rfl hthrow
  · rw [getProductByCertHash_of_ref rfl hcert href]
    exact (replyWithOnChain_cases ledgerDeep legacyProduct legacyProduct.productId
      [legacyProduct]).2.2.2 _ _ rfl hthrow
  · rw [hasBigInt_nestArrays]
    rfl

end ProductController
